import Mathlib

/-!
Shallow embedding of `ethstm` (src/ethstm/main.py), the Ethereum State Test
Maker.  The core under verification is the schema-driven
validation/translation engine: field parsers, the compile cache, `JSchema`
(record schema), `JSchemaDict` (collection schema) and the
`StateTestTranslator` composition.

Modelling decisions:
* Python exceptions (`SchemaError`, plus the dynamic-type errors Python would
  raise when a string operation is applied to a non-string) become an
  `Except Err` result.  Side effects (the `_bytecodes` memo dict, file reads
  and compiler subprocess spawns) are explicit: every side-effecting
  operation has type `... → TransState → Except Err α × TransState`, so the
  state (including the event log of file reads and spawns) is threaded and
  observable even on the error path, exactly as already-performed side
  effects survive a Python exception.
* The external compiler subprocess is modelled by an oracle
  `String → List Nat` giving the raw output bytes for a path; invoking it is
  recorded in the event log.
* Python dicts become association lists with unique keys; iteration order of
  `dict.iteritems()` is the (arbitrary but fixed) list order.
* `re.match(pat, s)` anchors only at the START of `s` (no implicit `$`): the
  matcher below consumes the pattern from the head of the string and ignores
  any leftover characters, exactly like CPython's `re.match`.
-/

namespace Ethstm

/-- The error taxonomy.  `SchemaError` messages from `main.py` are kept
structurally (constructor arguments are the values interpolated into the
Python format strings).  `notAString` / `notADict` / `pyKeyError` model the
`TypeError` / `AttributeError` / `KeyError` Python would raise when a value
of the wrong dynamic type reaches a string/dict operation; they too abort
the translation. -/
inductive Err where
  | invalidField (name : String) (src : String) (pat : String)
  | unknownDataPfx (pfx : String)
  | malformedData (src : String)
  | keySetMismatch (missingkeys : List String) (unexpectedkeys : List String)
  | noCompiler (path : String)
  | notAString
  | notADict
  | pyKeyError (key : String)
  deriving DecidableEq, Repr

/-- Observable side effects of `eth_compile`: opening/reading the source file
and spawning the external compiler subprocess. -/
inductive Ev where
  | readFile (path : String)
  | spawn (compiler : String) (path : String)
  deriving DecidableEq, Repr

/-- The mutable state of one `StateTestTranslator` instance: the
`self._bytecodes` memo dict (path ↦ bytecode hex) plus the log of external
side effects performed so far. -/
structure TransState where
  bytecodes : List (String × String)
  events : List Ev
  deriving DecidableEq, Repr

/-- The state of a freshly constructed translator: empty cache, no effects. -/
def emptyState : TransState := ⟨[], []⟩

/-- Character class `[0-9a-f]` (lowercase hex digit). -/
def isLowerHex (c : Char) : Bool := ('0' ≤ c && c ≤ '9') || ('a' ≤ c && c ≤ 'f')

/-- Character class `\d` (for a Python 2 byte string: `[0-9]`). -/
def isDigitC (c : Char) : Bool := '0' ≤ c && c ≤ '9'

/-- The two regular-expression shapes used by `main.py`:
`[0-9a-f]{n}` and `\d+`. -/
inductive RePat where
  | hexN (n : Nat)
  | digitsPlus
  deriving DecidableEq

/-- Match `[0-9a-f]{n}` at the head of the character list, returning the
remaining characters on success (which `re.match` ignores: no end anchor). -/
def matchHexRun : Nat → List Char → Option (List Char)
  | 0, cs => some cs
  | _ + 1, [] => none
  | n + 1, c :: cs => if isLowerHex c then matchHexRun n cs else none

/-- Match `\d+` at the head of the character list (greedy), returning the
remaining characters on success. -/
def matchDigitsPlus : List Char → Option (List Char)
  | [] => none
  | c :: cs => if isDigitC c then some (cs.dropWhile isDigitC) else none

/-- `re.match(pat, src)` truthiness: the pattern must match at the start of
the string; trailing characters are allowed (Python's `match` has no
implicit `$`). -/
def re_match : RePat → String → Bool
  | .hexN n, s => (matchHexRun n s.toList).isSome
  | .digitsPlus, s => (matchDigitsPlus s.toList).isSome

/-- `rgx_field(name, pat)` from `main.py`: return `src` unchanged if
`re.match` succeeds, otherwise raise
`SchemaError('Invalid {} field: {!r} does not match {}')`. -/
def rgx_field (name : String) (patStr : String) (pat : RePat) (src : String) :
    Except Err String :=
  if re_match pat src then .ok src
  else .error (.invalidField name src patStr)

/-- `Address = rgx_field('Address', r'[0-9a-f]{40}')`. -/
def Address : String → Except Err String :=
  rgx_field "Address" "[0-9a-f]{40}" (.hexN 40)

/-- `SecretKey = rgx_field('SecretKey', r'[0-9a-f]{64}')`. -/
def SecretKey : String → Except Err String :=
  rgx_field "SecretKey" "[0-9a-f]{64}" (.hexN 64)

/-- `UInt = rgx_field('UInt', r'\d+')`. -/
def UInt : String → Except Err String :=
  rgx_field "UInt" "\\d+" .digitsPlus

/-- Python's `src.split(':', 1)`: at most one split, at the first `':'`.
No colon gives the one-element list `[src]`; otherwise the two parts. -/
def splitColon1 (s : String) : List String :=
  let cs := s.toList
  if cs.contains ':' then
    [String.mk (cs.takeWhile (fun c => c ≠ ':')),
     String.mk ((cs.dropWhile (fun c => c ≠ ':')).drop 1)]
  else [s]

/-- Number of `':'` characters in a string (specification-side helper). -/
def countColons (s : String) : Nat := s.toList.count ':'

/-- `os.path.splitext(path)[1]`: the extension starts at the last `'.'` of
the basename, provided some earlier character of the basename is not a
`'.'` (so dotfiles like `.bashrc` have no extension). -/
def splitext_ext (path : String) : String :=
  let b := (path.toList.reverse.takeWhile (fun c => c ≠ '/')).reverse
  let rest := b.dropWhile (fun c => c = '.')
  if rest.contains '.' then
    String.mk ('.' :: (b.reverse.takeWhile (fun c => c ≠ '.')).reverse)
  else ""

/-- The fixed extension-to-compiler mapping `{'.se': 'serpent'}` of
`eth_compile`; `none` models the `KeyError` branch. -/
def compiler_for_ext (ext : String) : Option String :=
  if ext = ".se" then some "serpent" else none

/-- One lowercase hex digit for a value `0 ≤ n < 16`. -/
def hexDigit (n : Nat) : Char :=
  if n < 10 then Char.ofNat (48 + n) else Char.ofNat (87 + n)

/-- Two lowercase hex digits for one byte. -/
def hexByte (b : Nat) : List Char := [hexDigit (b % 256 / 16), hexDigit (b % 16)]

/-- Python's `output.encode('hex')`: lowercase hex of the byte string. -/
def hexEncode (bs : List Nat) : String :=
  String.mk (bs.foldr (fun b acc => hexByte b ++ acc) [])

/-- `eth_compile(path)` from `main.py`.  Look up a compiler for the path's
extension (raising `SchemaError` on an unknown extension, BEFORE any file is
read or subprocess spawned); then open the source file, pipe it to the
compiler subprocess (both recorded in the event log; `oracle path` is the
subprocess's captured standard output) and return `'0x' + output.encode('hex')`. -/
def eth_compile (oracle : String → List Nat) (path : String) (st : TransState) :
    Except Err String × TransState :=
  match compiler_for_ext (splitext_ext path) with
  | none => (.error (.noCompiler path), st)
  | some compiler =>
      (.ok ("0x" ++ hexEncode (oracle path)),
        { st with events := st.events ++ [.readFile path, .spawn compiler path] })

/-- The `Data` field parser closure from `StateTestTranslator.__init__`:
empty string passes through; otherwise `src.split(':', 1)`; `hex:` body gets
`0x` prepended; `compile:` body is resolved through the `self._bytecodes`
memo (invoking `eth_compile` only on a miss and storing the result); any
other prefix raises `SchemaError('Unknown data field prefix: ...')`; a
colon-free string raises `SchemaError("Expected a single ':' ...")`. -/
def Data (oracle : String → List Nat) (src : String) (st : TransState) :
    Except Err String × TransState :=
  if src.length = 0 then (.ok "", st)
  else
    match splitColon1 src with
    | [pfx, body] =>
        if pfx = "hex" then (.ok ("0x" ++ body), st)
        else if pfx = "compile" then
          match List.lookup body st.bytecodes with
          | some result => (.ok result, st)
          | none =>
              match eth_compile oracle body st with
              | (.ok result, st') =>
                  (.ok result, { st' with bytecodes := st'.bytecodes ++ [(body, result)] })
              | (.error e, st') => (.error e, st')
        else (.error (.unknownDataPfx pfx), st)
    | _ => (.error (.malformedData src), st)

/-- JSON values (the documents `json.load` produces). -/
inductive JValue where
  | str (s : String)
  | num (n : Int)
  | bool (b : Bool)
  | null
  | arr (elems : List JValue)
  | obj (fields : List (String × JValue))

/-- A field parser applied during schema validation: it may consult and
mutate the translator state and may fail. -/
abbrev FieldP := JValue → TransState → Except Err JValue × TransState

/-- `Any = lambda x: x`: accepts any value unchanged. -/
def Any : FieldP := fun v st => (.ok v, st)

/-- Lift a pure string parser to a `FieldP`; a non-string input models
Python raising a `TypeError`. -/
def strField (f : String → Except Err String) : FieldP := fun v st =>
  match v with
  | .str s => ((f s).map JValue.str, st)
  | _ => (.error .notAString, st)

/-- The `Data` closure as a `FieldP`. -/
def DataF (oracle : String → List Nat) : FieldP := fun v st =>
  match v with
  | .str s =>
      match Data oracle s st with
      | (.ok out, st') => (.ok (.str out), st')
      | (.error e, st') => (.error e, st')
  | _ => (.error .notAString, st)

/-- `JSchema(**fieldspecs)`: the record schema is its list of
(field name, field parser) pairs; `_expectedkeys` is the key list. -/
structure JSchema where
  fieldspecs : List (String × FieldP)

/-- The expected key set of a record schema (`self._expectedkeys`). -/
def JSchema.expectedkeys (sch : JSchema) : List String :=
  sch.fieldspecs.map Prod.fst

/-- The field-application loop of `JSchema.__call__`:
`for key, spec in fieldspecs: result[key] = spec(indoc[key])`, collecting
`result` in fieldspec order.  The `pyKeyError` branch models `indoc[key]`
raising a `KeyError`; it is unreachable when the key-set check has passed. -/
def applyFields : List (String × FieldP) → List (String × JValue) → TransState →
    Except Err (List (String × JValue)) × TransState
  | [], _, st => (.ok [], st)
  | (key, spec) :: rest, indoc, st =>
      match List.lookup key indoc with
      | none => (.error (.pyKeyError key), st)
      | some v =>
          match spec v st with
          | (.ok vout, st') =>
              match applyFields rest indoc st' with
              | (.ok routs, st'') => (.ok ((key, vout) :: routs), st'')
              | (.error e, st'') => (.error e, st'')
          | (.error e, st') => (.error e, st')

/-- `JSchema.__call__(indoc)`: compute `missingkeys = expected - inkeys` and
`unexpectedkeys = inkeys - expected`; if either is non-empty raise one
`SchemaError` reporting BOTH sets; otherwise run every field parser. -/
def JSchema.call (sch : JSchema) (indoc : List (String × JValue)) (st : TransState) :
    Except Err (List (String × JValue)) × TransState :=
  let inkeys := indoc.map Prod.fst
  let missingkeys := sch.expectedkeys.filter (fun k => !(inkeys.contains k))
  let unexpectedkeys := inkeys.filter (fun k => !(sch.expectedkeys.contains k))
  if missingkeys ≠ [] ∨ unexpectedkeys ≠ [] then
    (.error (.keySetMismatch missingkeys unexpectedkeys), st)
  else
    applyFields sch.fieldspecs indoc st

/-- A nested record schema used as a field parser (the `transaction` field);
a non-dict value models Python raising on `indoc.keys()`. -/
def schemaField (sch : JSchema) : FieldP := fun v st =>
  match v with
  | .obj fields =>
      match JSchema.call sch fields st with
      | (.ok outf, st') => (.ok (.obj outf), st')
      | (.error e, st') => (.error e, st')
  | _ => (.error .notADict, st)

/-- `JSchemaDict(keyspec, valspec)`: the collection schema.  `keyspec` is
`str` in this program, a total function on the string keys. -/
structure JSchemaDict where
  keyspec : String → String
  valspec : FieldP

/-- The entry loop of `JSchemaDict.__call__`, with the accumulated `result`
dict made explicit: process entries one at a time in iteration order,
stopping at (and propagating) the first failure. -/
def JSchemaDict.go (d : JSchemaDict) :
    List (String × JValue) → List (String × JValue) → TransState →
    Except Err (List (String × JValue)) × TransState
  | [], acc, st => (.ok acc, st)
  | (kin, vin) :: rest, acc, st =>
      let kout := d.keyspec kin
      match d.valspec vin st with
      | (.ok vout, st') => d.go rest (acc ++ [(kout, vout)]) st'
      | (.error e, st') => (.error e, st')

/-- `JSchemaDict.__call__(indoc)`. -/
def JSchemaDict.call (d : JSchemaDict) (indoc : List (String × JValue))
    (st : TransState) : Except Err (List (String × JValue)) × TransState :=
  d.go indoc [] st

/-- The `Transaction` record schema of `StateTestTranslator.__init__`. -/
def Transaction (oracle : String → List Nat) : JSchema :=
  ⟨[("data", DataF oracle),
    ("gasLimit", strField UInt),
    ("gasPrice", strField UInt),
    ("nonce", strField UInt),
    ("secretKey", strField SecretKey),
    ("to", strField Address),
    ("value", strField UInt)]⟩

/-- The `TestCase` record schema of `StateTestTranslator.__init__`: six
opaque pass-through fields plus the validated `transaction`. -/
def TestCase (oracle : String → List Nat) : JSchema :=
  ⟨[("env", Any),
    ("logs", Any),
    ("out", Any),
    ("post", Any),
    ("postStateRoot", Any),
    ("pre", Any),
    ("transaction", schemaField (Transaction oracle))]⟩

/-- `StateTestTranslator.__call__(jsonin)`: a fresh translator (empty cache)
runs `JSchemaDict(str, TestCase)` over the whole input document. -/
def StateTestTranslator (oracle : String → List Nat)
    (jsonin : List (String × JValue)) :
    Except Err (List (String × JValue)) × TransState :=
  JSchemaDict.call ⟨fun k => k, schemaField (TestCase oracle)⟩ jsonin emptyState

/-- A fixed compiler oracle for concrete evaluations: every compile produces
no output bytes. -/
def oracle0 : String → List Nat := fun _ => []

/-! ## Helper lemmas -/

/-- Looking a key up in an appended association list skips a front part that
does not contain it. -/
theorem lookup_append_of_none {β : Type} (k : String) (l1 l2 : List (String × β))
    (h : List.lookup k l1 = none) : List.lookup k (l1 ++ l2) = List.lookup k l2 := by
  induction l1 with
  | nil => simp
  | cons p t ih =>
      simp only [List.cons_append, List.lookup] at h ⊢
      cases hk : k == p.1
      · simp only [hk] at h ⊢; exact ih h
      · simp [hk] at h

/-- `takeWhile (· ≠ ':')` stops exactly at an explicit colon. -/
theorem takeWhile_no_colon (l r : List Char) (hl : ∀ c ∈ l, c ≠ ':') :
    (l ++ ':' :: r).takeWhile (fun c => c ≠ ':') = l := by
  induction l with
  | nil => simp
  | cons c t ih =>
      have hc : (fun c => decide (c ≠ ':')) c = true := by
        simp [hl c (by simp)]
      simp only [List.cons_append, List.takeWhile_cons, hc, if_true]
      exact congrArg (List.cons c) (ih (fun x hx => hl x (by simp [hx])))

/-- `dropWhile (· ≠ ':')` stops exactly at an explicit colon. -/
theorem dropWhile_no_colon (l r : List Char) (hl : ∀ c ∈ l, c ≠ ':') :
    (l ++ ':' :: r).dropWhile (fun c => c ≠ ':') = ':' :: r := by
  induction l with
  | nil => simp
  | cons c t ih =>
      have hc : (fun c => decide (c ≠ ':')) c = true := by
        simp [hl c (by simp)]
      simp only [List.cons_append, List.dropWhile_cons, hc, if_true]
      exact ih (fun x hx => hl x (by simp [hx]))

/-- A character list without `':'` (per `contains`) has no `':'` member. -/
theorem contains_false_not_mem (l : List Char) (h : l.contains ':' = false) :
    ∀ c ∈ l, c ≠ ':' := by
  intro c hc he
  subst he
  simp [List.contains] at h
  exact h hc

/-- `split(':', 1)` on a string of the shape `a ++ ":" ++ b`, with `a`
colon-free, yields exactly the pair `[a, b]` (the split happens at the FIRST
colon; `b` may itself contain further colons). -/
theorem splitColon1_split (a b : String) (ha : a.toList.contains ':' = false) :
    splitColon1 (a ++ ":" ++ b) = [a, b] := by
  have hdata : (a ++ ":" ++ b).toList = a.toList ++ ':' :: b.toList := by
    show (a ++ ":" ++ b).data = a.data ++ ':' :: b.data
    rw [String.data_append, String.data_append, List.append_assoc]
    rfl
  have hall := contains_false_not_mem _ ha
  simp only [splitColon1, hdata]
  rw [if_pos (by simp [List.contains])]
  rw [takeWhile_no_colon _ _ hall, dropWhile_no_colon _ _ hall]
  rfl

/-- A string starting with a non-empty prefix has non-zero length. -/
theorem append_length_ne_zero (a b : String) (ha : a.data ≠ []) :
    ¬ (a ++ b).length = 0 := by
  intro h0
  have h1 : (a.data ++ b.data).length = 0 := by
    rw [← String.data_append]
    exact h0
  rw [List.length_append] at h1
  exact ha (List.length_eq_zero.mp (Nat.eq_zero_of_add_eq_zero_right h1))

/-- When `eth_compile` fails, the error is the unsupported-extension error
(naming the path) and the state — in particular the event log of file reads
and subprocess spawns — is completely untouched. -/
theorem eth_compile_error_cases (oracle : String → List Nat) (path : String)
    (st : TransState) (e : Err) (st' : TransState)
    (h : eth_compile oracle path st = (.error e, st')) :
    e = .noCompiler path ∧ st' = st ∧
      compiler_for_ext (splitext_ext path) = none := by
  cases hc : compiler_for_ext (splitext_ext path) with
  | none =>
      simp only [eth_compile, hc, Prod.mk.injEq, Except.error.injEq] at h
      exact ⟨h.1.symm, h.2.symm, rfl⟩
  | some c => simp [eth_compile, hc] at h

/-- When the `Data` parser has split a non-empty field into a prefix/body
pair, no branch can raise the malformed-data error: every branch yields a
success, the unknown-prefix error, or the unsupported-extension error. -/
theorem Data_split_error_not_malformed (oracle : String → List Nat)
    (src pfx body : String) (st : TransState)
    (hs : ¬ src.length = 0) (hsp : splitColon1 src = [pfx, body]) :
    ∀ e st', Data oracle src st = (Except.error e, st') → e ≠ Err.malformedData src := by
  intro e st' h
  simp only [Data, if_neg hs, hsp] at h
  by_cases h1 : pfx = "hex"
  · simp [h1] at h
  · by_cases h2 : pfx = "compile"
    · subst h2
      rw [if_neg h1, if_pos rfl] at h
      cases hl : List.lookup body st.bytecodes with
      | some r =>
          rw [hl] at h
          simp at h
      | none =>
          rw [hl] at h
          cases hec : eth_compile oracle body st with
          | mk res st2 =>
              cases res with
              | ok r =>
                  rw [hec] at h
                  simp at h
              | error e2 =>
                  rw [hec] at h
                  simp only [Prod.mk.injEq, Except.error.injEq] at h
                  have he2 := (eth_compile_error_cases oracle body st e2 st2 hec).1
                  rw [← h.1, he2]
                  simp
    · rw [if_neg h1, if_neg h2] at h
      simp only [Prod.mk.injEq, Except.error.injEq] at h
      rw [← h.1]
      simp

/-! ## Claim theorems -/

/-- Claim C1 (code evaluation): the claim fails on the code.  The field
parsers are built on Python's `re.match`, which anchors only at the start of
the string, so the whole string need NOT match: a 41-character string of
lowercase hex IS accepted by the `Address` parser (its first 40 characters
match), a 65-character string by the `SecretKey` parser, and `"1x"` by the
`UInt` parser.  Too-short strings (39 characters) are still rejected,
because 40 leading hex characters cannot be found. -/
theorem C1_unanchored_match_accepts_overlong :
    (String.mk (List.replicate 41 'a')).length = 41 ∧
    Address (String.mk (List.replicate 41 'a')) =
      Except.ok (String.mk (List.replicate 41 'a')) ∧
    (String.mk (List.replicate 65 'b')).length = 65 ∧
    SecretKey (String.mk (List.replicate 65 'b')) =
      Except.ok (String.mk (List.replicate 65 'b')) ∧
    UInt "1x" = Except.ok "1x" ∧
    Address (String.mk (List.replicate 39 'a')) =
      Except.error (Err.invalidField "Address" (String.mk (List.replicate 39 'a'))
        "[0-9a-f]{40}") :=
  ⟨rfl, rfl, rfl, rfl, rfl, rfl⟩

/-- Claim C2 (counterexample): the claim as stated is false.  The string
`"hex:a:b"` contains two colons, yet the `Data` parser accepts it (Python's
`split(':', 1)` performs at most one split, so any string with at least one
colon yields exactly two parts) — it does not fail with a schema error. -/
theorem C2_two_colons_accepted :
    countColons "hex:a:b" = 2 ∧
    Data oracle0 "hex:a:b" emptyState = (Except.ok "0xa:b", emptyState) :=
  ⟨rfl, rfl⟩

/-- Claim C2 (amended): for every string given to the Data field parser, the
parse fails with the malformed-data (schema) error exactly when the string
is non-empty and contains NO colon; a non-empty string containing one or
more colons is instead split at its first colon into a prefix/body pair. -/
theorem C2_amended_malformed_iff (oracle : String → List Nat) (s : String)
    (st : TransState) :
    (Data oracle s st).1 = Except.error (Err.malformedData s) ↔
      s ≠ "" ∧ s.toList.contains ':' = false := by
  by_cases hs : s.length = 0
  · have hse : s = "" := by
      cases s with
      | mk d =>
          simp [String.length] at hs
          simp [hs]
    subst hse
    simp [Data]
  · have hne : s ≠ "" := fun he => hs (by simp [he])
    cases hc : s.toList.contains ':' with
    | true =>
        constructor
        · intro h
          have hsp : splitColon1 s =
              [String.mk (s.toList.takeWhile (fun c => c ≠ ':')),
               String.mk ((s.toList.dropWhile (fun c => c ≠ ':')).drop 1)] := by
            simp only [splitColon1]
            rw [if_pos hc]
          cases hD : Data oracle s st with
          | mk res st' =>
              cases res with
              | ok r =>
                  rw [hD] at h
                  simp at h
              | error e =>
                  rw [hD] at h
                  replace h : Except.error e = Except.error (Err.malformedData s) := h
                  simp only [Except.error.injEq] at h
                  exact absurd h
                    (Data_split_error_not_malformed oracle s _ _ st hs hsp e st' hD)
        · intro hrhs
          simp at hrhs
    | false =>
        have hsp : splitColon1 s = [s] := by
          simp only [splitColon1]
          rw [if_neg (fun hcc => Bool.false_ne_true (hc ▸ hcc))]
        simp only [Data, if_neg hs, hsp]
        simp [hne]

/-- Claim C5: the Data field parser maps the empty string to the empty
string, and maps `"hex:" ++ body` to `"0x" ++ body` for EVERY body string —
the body is passed through unchanged and never format-validated — in both
cases without touching the translator state. -/
theorem C5_empty_and_hex (oracle : String → List Nat) (body : String)
    (st : TransState) :
    Data oracle "" st = (Except.ok "", st) ∧
    Data oracle ("hex" ++ ":" ++ body) st = (Except.ok ("0x" ++ body), st) := by
  constructor
  · rfl
  · have hlen := append_length_ne_zero ("hex" ++ ":") body (by decide)
    have hsp := splitColon1_split "hex" body (by decide)
    simp only [Data, if_neg hlen, hsp]
    simp

/-- Claim C9: for every non-empty Data field string that splits at its first
colon into a prefix/body pair (the prefix is the colon-free part before the
first colon), if the prefix is neither `hex` nor `compile` the parse fails
with the unknown-data-field-prefix error naming that prefix, leaving the
state untouched. -/
theorem C9_unknown_pfx (oracle : String → List Nat) (pfx body : String)
    (st : TransState) (hp : pfx.toList.contains ':' = false)
    (h2 : pfx ≠ "hex") (h3 : pfx ≠ "compile") :
    Data oracle (pfx ++ ":" ++ body) st =
      (Except.error (Err.unknownDataPfx pfx), st) := by
  have hlen : ¬ (pfx ++ ":" ++ body).length = 0 := by
    have hd : (pfx ++ ":").data ≠ [] := by
      rw [String.data_append]
      simp
    exact append_length_ne_zero (pfx ++ ":") body hd
  have hsp := splitColon1_split pfx body hp
  simp only [Data, if_neg hlen, hsp]
  rw [if_neg h2, if_neg h3]

/-- Claim C9 witness: the concrete field `"foo:bar"` fails with the
unknown-prefix error naming `"foo"`. -/
theorem C9_unknown_pfx_witness :
    Data oracle0 ("foo" ++ ":" ++ "bar") emptyState =
      (Except.error (Err.unknownDataPfx "foo"), emptyState) :=
  C9_unknown_pfx oracle0 "foo" "bar" emptyState (by decide) (by decide) (by decide)


theorem eth_compile_ok_bytecodes (oracle : String → List Nat) (path : String)
    (st : TransState) (r : String) (st2 : TransState)
    (h : eth_compile oracle path st = (Except.ok r, st2)) :
    st2.bytecodes = st.bytecodes := by
  cases hc : compiler_for_ext (splitext_ext path) with
  | none => simp [eth_compile, hc] at h
  | some c =>
      simp only [eth_compile, hc, Prod.mk.injEq, Except.ok.injEq] at h
      rw [← h.2]

theorem compile_src_len (p : String) : ¬ ("compile" ++ ":" ++ p).length = 0 := by
  have hd : ("compile" ++ ":").data ≠ [] := by
    rw [String.data_append]
    simp
  exact append_length_ne_zero ("compile" ++ ":") p hd

/-- Looking a key up in an appended association list is unaffected by a
back part when the front part already contains it. -/
theorem lookup_some_append {β : Type} (k : String) (l1 l2 : List (String × β)) (v : β)
    (h : List.lookup k l1 = some v) : List.lookup k (l1 ++ l2) = some v := by
  induction l1 with
  | nil => simp at h
  | cons q t ih =>
      simp only [List.cons_append, List.lookup] at h ⊢
      cases hk : k == q.1
      · simp only [hk] at h ⊢
        exact ih h
      · simp only [hk] at h ⊢
        exact h

/-- Every `Data` call — on any field string, succeeding or failing —
preserves existing compile-cache entries: the `_bytecodes` dict only ever
grows by appending. -/
theorem Data_preserves_cache (oracle : String → List Nat) (src : String)
    (st : TransState) (res : Except Err String) (st' : TransState)
    (hD : Data oracle src st = (res, st'))
    (p v : String) (hp : List.lookup p st.bytecodes = some v) :
    List.lookup p st'.bytecodes = some v := by
  by_cases hs : src.length = 0
  · simp only [Data, if_pos hs, Prod.mk.injEq] at hD
    rw [← hD.2]
    exact hp
  · cases hsp : splitColon1 src with
    | nil =>
        simp only [Data, if_neg hs, hsp, Prod.mk.injEq] at hD
        rw [← hD.2]
        exact hp
    | cons a rest =>
        cases rest with
        | nil =>
            simp only [Data, if_neg hs, hsp, Prod.mk.injEq] at hD
            rw [← hD.2]
            exact hp
        | cons b rest2 =>
            cases rest2 with
            | nil =>
                simp only [Data, if_neg hs, hsp] at hD
                by_cases h1 : a = "hex"
                · simp only [if_pos h1, Prod.mk.injEq] at hD
                  rw [← hD.2]
                  exact hp
                · by_cases h2 : a = "compile"
                  · simp only [if_neg h1, if_pos h2] at hD
                    cases hl : List.lookup b st.bytecodes with
                    | some r =>
                        rw [hl] at hD
                        simp only [Prod.mk.injEq] at hD
                        rw [← hD.2]
                        exact hp
                    | none =>
                        rw [hl] at hD
                        cases hec : eth_compile oracle b st with
                        | mk res2 st2 =>
                            cases res2 with
                            | ok r =>
                                rw [hec] at hD
                                simp only [Prod.mk.injEq] at hD
                                rw [← hD.2]
                                show List.lookup p (st2.bytecodes ++ [(b, r)]) = some v
                                rw [eth_compile_ok_bytecodes oracle b st r st2 hec]
                                exact lookup_some_append p st.bytecodes [(b, r)] v hp
                            | error e2 =>
                                rw [hec] at hD
                                simp only [Prod.mk.injEq] at hD
                                rw [← hD.2]
                                rw [(eth_compile_error_cases oracle b st e2 st2 hec).2.1]
                                exact hp
                  · simp only [if_neg h1, if_neg h2, Prod.mk.injEq] at hD
                    rw [← hD.2]
                    exact hp
            | cons c rest3 =>
                simp only [Data, if_neg hs, hsp, Prod.mk.injEq] at hD
                rw [← hD.2]
                exact hp

/-- Claim C3: compile-path resolution is memoized within one Translator
instance.  Whenever a `compile:<p>` Data field succeeds, the resulting
bytecode is stored in the cache under `p`; resolving the same field again on
the resulting state returns the identical stored value with the state —
including the event log of file reads and subprocess spawns — completely
unchanged (no second compiler invocation); and if the path was already
cached, the call is a pure hit: the state is unchanged and the returned
value is exactly the stored one.  Moreover every later `Data` call, on any
field whatsoever, preserves the cached entry.  Chaining these facts, the external
compiler runs at most once per path per Translator lifetime and every
referencing field receives the identical bytecode string. -/
theorem C3_memoized (oracle : String → List Nat) (p v : String)
    (st st' : TransState)
    (h : Data oracle ("compile" ++ ":" ++ p) st = (Except.ok v, st')) :
    List.lookup p st'.bytecodes = some v ∧
    Data oracle ("compile" ++ ":" ++ p) st' = (Except.ok v, st') ∧
    (∀ w, List.lookup p st.bytecodes = some w → st' = st ∧ v = w) ∧
    (∀ src2 res2 st2, Data oracle src2 st' = (res2, st2) →
      List.lookup p st2.bytecodes = some v) := by
  have hlen := compile_src_len p
  have hsp := splitColon1_split "compile" p (by decide)
  simp only [Data, if_neg hlen, hsp, if_neg (by decide : ¬ ("compile" : String) = "hex"),
    eq_self_iff_true, if_true] at h
  cases hl : List.lookup p st.bytecodes with
  | some w =>
      rw [hl] at h
      simp only [Prod.mk.injEq, Except.ok.injEq] at h
      obtain ⟨hv, hst⟩ := h
      subst hv
      subst hst
      refine ⟨hl, ?_, ?_, ?_⟩
      · simp only [Data, if_neg hlen, hsp, if_neg (by decide : ¬ ("compile" : String) = "hex"),
          eq_self_iff_true, if_true, hl]
      · intro w' hw'
        cases hw'
        exact ⟨rfl, rfl⟩
      · intro src2 res2 st2 hD2
        exact Data_preserves_cache oracle src2 st res2 st2 hD2 p w hl
  | none =>
      rw [hl] at h
      cases hec : eth_compile oracle p st with
      | mk res st2 =>
          cases res with
          | error e2 =>
              rw [hec] at h
              simp at h
          | ok r =>
              rw [hec] at h
              simp only [Prod.mk.injEq, Except.ok.injEq] at h
              obtain ⟨hv, hst⟩ := h
              subst hv
              have hb2 : st2.bytecodes = st.bytecodes :=
                eth_compile_ok_bytecodes oracle p st r st2 hec
              have hlook : List.lookup p st'.bytecodes = some r := by
                rw [← hst]
                show List.lookup p (st2.bytecodes ++ [(p, r)]) = some r
                rw [hb2, lookup_append_of_none p st.bytecodes [(p, r)] hl]
                simp
              refine ⟨hlook, ?_, ?_, ?_⟩
              · simp only [Data, if_neg hlen, hsp,
                  if_neg (by decide : ¬ ("compile" : String) = "hex"),
                  eq_self_iff_true, if_true, hlook]
              · intro w' hw'
                cases hw'
              · intro src2 res2 st2 hD2
                exact Data_preserves_cache oracle src2 st' res2 st2 hD2 p r hlook

/-- Claim C3 witness: after the first `compile:c.se` resolution from the
empty state, the cache holds `c.se ↦ 0x` and a second resolution returns the
same value with the state (one file read, one spawn) unchanged. -/
theorem C3_memoized_witness :
    List.lookup "c.se"
      (TransState.mk [("c.se", "0x")] [Ev.readFile "c.se", Ev.spawn "serpent" "c.se"]).bytecodes
      = some "0x" ∧
    Data oracle0 ("compile" ++ ":" ++ "c.se")
        (TransState.mk [("c.se", "0x")] [Ev.readFile "c.se", Ev.spawn "serpent" "c.se"]) =
      (Except.ok "0x",
        TransState.mk [("c.se", "0x")] [Ev.readFile "c.se", Ev.spawn "serpent" "c.se"]) :=
  ⟨(C3_memoized oracle0 "c.se" "0x" emptyState
      (TransState.mk [("c.se", "0x")] [Ev.readFile "c.se", Ev.spawn "serpent" "c.se"]) rfl).1,
   (C3_memoized oracle0 "c.se" "0x" emptyState
      (TransState.mk [("c.se", "0x")] [Ev.readFile "c.se", Ev.spawn "serpent" "c.se"]) rfl).2.1⟩

/-- Claim C6: a `compile:<p>` Data field whose path's extension is outside
the fixed `{'.se': 'serpent'}` mapping fails with the no-compiler validation
error naming the path, and the returned state is exactly the input state:
no file-read and no subprocess-spawn event is recorded, so the failure
happens before the source file is read and before any compiler process is
started. -/
theorem C6_unknown_ext (oracle : String → List Nat) (p : String) (st : TransState)
    (hext : compiler_for_ext (splitext_ext p) = none)
    (hmiss : List.lookup p st.bytecodes = none) :
    eth_compile oracle p st = (Except.error (Err.noCompiler p), st) ∧
    Data oracle ("compile" ++ ":" ++ p) st =
      (Except.error (Err.noCompiler p), st) := by
  have he : eth_compile oracle p st = (Except.error (Err.noCompiler p), st) := by
    simp [eth_compile, hext]
  refine ⟨he, ?_⟩
  have hlen := compile_src_len p
  have hsp := splitColon1_split "compile" p (by decide)
  simp only [Data, if_neg hlen, hsp, if_neg (by decide : ¬ ("compile" : String) = "hex"),
    eq_self_iff_true, if_true, hmiss, he]

/-- Claim C6 witness: `compile:a.xyz` from the empty state fails with the
no-compiler error and an empty event log. -/
theorem C6_unknown_ext_witness :
    eth_compile oracle0 "a.xyz" emptyState =
      (Except.error (Err.noCompiler "a.xyz"), emptyState) ∧
    Data oracle0 ("compile" ++ ":" ++ "a.xyz") emptyState =
      (Except.error (Err.noCompiler "a.xyz"), emptyState) :=
  C6_unknown_ext oracle0 "a.xyz" emptyState (by decide) rfl


theorem contains_iff_mem (x : String) (l : List String) :
    l.contains x = true ↔ x ∈ l := by
  simp [List.contains]

theorem contains_false_iff (x : String) (l : List String) :
    l.contains x = false ↔ x ∉ l := by
  constructor
  · intro h hm
    rw [(contains_iff_mem x l).mpr hm] at h
    cases h
  · intro h
    cases hc : l.contains x
    · rfl
    · exact absurd ((contains_iff_mem x l).mp hc) h

/-- When the input's key set equals the expected key set, the key-set check
of `JSchema.call` passes and the call proceeds directly to the field
parsers. -/
theorem call_eq_applyFields_of_keyset_eq (sch : JSchema)
    (indoc : List (String × JValue)) (st : TransState)
    (hI : ∀ x, x ∈ indoc.map Prod.fst ↔ x ∈ sch.expectedkeys) :
    JSchema.call sch indoc st = applyFields sch.fieldspecs indoc st := by
  have hM : sch.expectedkeys.filter
      (fun k' => !((indoc.map Prod.fst).contains k')) = [] := by
    rw [List.filter_eq_nil_iff]
    intro a ha
    simp only [Bool.not_eq_true', contains_false_iff, Decidable.not_not]
    exact (hI a).mpr ha
  have hU : (indoc.map Prod.fst).filter
      (fun k' => !(sch.expectedkeys.contains k')) = [] := by
    rw [List.filter_eq_nil_iff]
    intro a ha
    simp only [Bool.not_eq_true', contains_false_iff, Decidable.not_not]
    exact (hI a).mp ha
  have hcond : ¬ (sch.expectedkeys.filter
        (fun k' => !((indoc.map Prod.fst).contains k')) ≠ [] ∨
      (indoc.map Prod.fst).filter (fun k' => !(sch.expectedkeys.contains k')) ≠ []) := by
    rw [hM, hU]
    simp
  simp only [JSchema.call]
  rw [if_neg hcond]

/-- Claim C4: for a record whose key set differs from the schema's expected
key set, validation fails with a SINGLE error reporting both the missing
key set and the unexpected key set; in particular, for a record missing
exactly `k` and containing exactly the extra key `u`, the reported missing
set is `{k}` and the reported unexpected set is `{u}`.  When the key sets
are equal, validation does not fail on keys: it proceeds directly to the
field parsers. -/
theorem C4_keyset_dual_report (sch : JSchema) (indoc : List (String × JValue))
    (st : TransState) (k u : String) :
    ((k ∈ sch.expectedkeys ∧ u ∉ sch.expectedkeys ∧
      (∀ x, x ∈ indoc.map Prod.fst ↔ (x ∈ sch.expectedkeys ∧ x ≠ k) ∨ x = u)) →
      ∃ M U, JSchema.call sch indoc st = (Except.error (Err.keySetMismatch M U), st) ∧
        (∀ x, x ∈ M ↔ x = k) ∧ (∀ x, x ∈ U ↔ x = u)) ∧
    ((∀ x, x ∈ indoc.map Prod.fst ↔ x ∈ sch.expectedkeys) →
      JSchema.call sch indoc st = applyFields sch.fieldspecs indoc st) := by
  constructor
  · rintro ⟨hk, hu, hI⟩
    have hknotI : k ∉ indoc.map Prod.fst := by
      intro hmem
      rcases (hI k).mp hmem with ⟨_, hne⟩ | heq
      · exact hne rfl
      · exact hu (heq ▸ hk)
    have huI : u ∈ indoc.map Prod.fst := (hI u).mpr (Or.inr rfl)
    have hM : ∀ x, x ∈ sch.expectedkeys.filter
        (fun k' => !((indoc.map Prod.fst).contains k')) ↔ x = k := by
      intro x
      simp only [List.mem_filter, Bool.not_eq_true']
      rw [contains_false_iff]
      constructor
      · rintro ⟨hxE, hxI⟩
        by_contra hne
        exact hxI ((hI x).mpr (Or.inl ⟨hxE, hne⟩))
      · rintro rfl
        exact ⟨hk, hknotI⟩
    have hU : ∀ x, x ∈ (indoc.map Prod.fst).filter
        (fun k' => !(sch.expectedkeys.contains k')) ↔ x = u := by
      intro x
      simp only [List.mem_filter, Bool.not_eq_true']
      rw [contains_false_iff]
      constructor
      · rintro ⟨hxI, hxE⟩
        rcases (hI x).mp hxI with ⟨hE, _⟩ | heq
        · exact absurd hE hxE
        · exact heq
      · rintro rfl
        exact ⟨huI, hu⟩
    have hMne : sch.expectedkeys.filter
        (fun k' => !((indoc.map Prod.fst).contains k')) ≠ [] :=
      List.ne_nil_of_mem ((hM k).mpr rfl)
    refine ⟨_, _, ?_, hM, hU⟩
    simp only [JSchema.call]
    rw [if_pos (Or.inl hMne)]
  · exact call_eq_applyFields_of_keyset_eq sch indoc st

/-- Claim C4 witness: a one-field schema expecting `a` applied to a record
holding only `b` reports missing set `{a}` and unexpected set `{b}` in one
error. -/
theorem C4_keyset_dual_report_witness :
    ∃ M U, JSchema.call ⟨[("a", Any)]⟩ [("b", JValue.null)] emptyState =
        (Except.error (Err.keySetMismatch M U), emptyState) ∧
      (∀ x, x ∈ M ↔ x = "a") ∧ (∀ x, x ∈ U ↔ x = "b") :=
  (C4_keyset_dual_report ⟨[("a", Any)]⟩ [("b", JValue.null)] emptyState "a" "b").1
    ⟨by simp [JSchema.expectedkeys], by simp [JSchema.expectedkeys],
     by intro x; simp [JSchema.expectedkeys]⟩

/-- Claim C10: record-schema validation is atomic on a key-set mismatch.
The key-set check runs before any field parser: whenever some key is
missing or unexpected, `JSchema.call` returns the mismatch error with the
translator state returned UNCHANGED — no field parser is invoked, so no
compile-cache mutation and no file-read or compiler-subprocess event occurs
for that record. -/
theorem C10_keyset_checked_first (sch : JSchema) (indoc : List (String × JValue))
    (st : TransState) (x : String)
    (h : (x ∈ sch.expectedkeys ∧ x ∉ indoc.map Prod.fst) ∨
         (x ∈ indoc.map Prod.fst ∧ x ∉ sch.expectedkeys)) :
    ∃ M U, JSchema.call sch indoc st = (Except.error (Err.keySetMismatch M U), st) := by
  rcases h with ⟨hE, hI⟩ | ⟨hI, hE⟩
  · have hMne : sch.expectedkeys.filter
        (fun k' => !((indoc.map Prod.fst).contains k')) ≠ [] := by
      refine List.ne_nil_of_mem (a := x) ?_
      simp only [List.mem_filter, Bool.not_eq_true']
      rw [contains_false_iff]
      exact ⟨hE, hI⟩
    refine ⟨sch.expectedkeys.filter (fun k' => !((indoc.map Prod.fst).contains k')),
            (indoc.map Prod.fst).filter (fun k' => !(sch.expectedkeys.contains k')), ?_⟩
    simp only [JSchema.call]
    rw [if_pos (Or.inl hMne)]
  · have hUne : (indoc.map Prod.fst).filter
        (fun k' => !(sch.expectedkeys.contains k')) ≠ [] := by
      refine List.ne_nil_of_mem (a := x) ?_
      simp only [List.mem_filter, Bool.not_eq_true']
      rw [contains_false_iff]
      exact ⟨hI, hE⟩
    refine ⟨sch.expectedkeys.filter (fun k' => !((indoc.map Prod.fst).contains k')),
            (indoc.map Prod.fst).filter (fun k' => !(sch.expectedkeys.contains k')), ?_⟩
    simp only [JSchema.call]
    rw [if_pos (Or.inr hUne)]

/-- Claim C10 witness: the full TestCase schema applied to an empty record
fails on keys with the state untouched. -/
theorem C10_keyset_checked_first_witness :
    ∃ M U, JSchema.call (TestCase oracle0) [] emptyState =
      (Except.error (Err.keySetMismatch M U), emptyState) :=
  C10_keyset_checked_first (TestCase oracle0) [] emptyState "env"
    (Or.inl ⟨by simp [TestCase, JSchema.expectedkeys], by simp⟩)

theorem go_append_fail (d : JSchemaDict) (l1 : List (String × JValue)) :
    ∀ acc st r1 st1, d.go l1 acc st = (Except.ok r1, st1) →
    ∀ l2 k v e st2, d.valspec v st1 = (Except.error e, st2) →
    d.go (l1 ++ (k, v) :: l2) acc st = (Except.error e, st2) := by
  induction l1 with
  | nil =>
      intro acc st r1 st1 h1 l2 k v e st2 h2
      simp only [JSchemaDict.go, Prod.mk.injEq, Except.ok.injEq] at h1
      obtain ⟨_, hst⟩ := h1
      subst hst
      simp only [List.nil_append, JSchemaDict.go, h2]
  | cons p t ih =>
      obtain ⟨kin, vin⟩ := p
      intro acc st r1 st1 h1 l2 k v e st2 h2
      simp only [JSchemaDict.go] at h1
      cases hv : d.valspec vin st with
      | mk res st' =>
          cases res with
          | error e' =>
              rw [hv] at h1
              simp at h1
          | ok vout =>
              rw [hv] at h1
              simp only [List.cons_append, JSchemaDict.go, hv]
              exact ih _ _ _ _ h1 l2 k v e st2 h2

/-- Claim C7: Collection Schema validation is fail-fast.  `JSchemaDict`
processes entries one at a time in iteration order; if every entry of `l1`
validates and the next entry's value fails with error `e`, the whole call
fails with exactly `e`, and both the result and the final state are
independent of the remaining entries `l2` — later entries are never
processed, so no side effects (file reads, compilations, cache writes)
occur for entries after the failure point. -/
theorem C7_fail_fast (d : JSchemaDict) (l1 l2 : List (String × JValue))
    (k : String) (v : JValue) (st st1 st2 : TransState)
    (r1 : List (String × JValue)) (e : Err)
    (h1 : d.go l1 [] st = (Except.ok r1, st1))
    (h2 : d.valspec v st1 = (Except.error e, st2)) :
    JSchemaDict.call d (l1 ++ (k, v) :: l2) st = (Except.error e, st2) :=
  go_append_fail d l1 [] st r1 st1 h1 l2 k v e st2 h2

/-- Claim C7 witness: with a UInt value parser, the entry `b ↦ "x"` fails
after `a ↦ "1"` succeeds, the error names the offending value, the state is
untouched, and the trailing entry `c ↦ "2"` is never examined. -/
theorem C7_fail_fast_witness :
    JSchemaDict.call ⟨fun kk => kk, strField UInt⟩
        ([("a", JValue.str "1")] ++ ("b", JValue.str "x") :: [("c", JValue.str "2")])
        emptyState =
      (Except.error (Err.invalidField "UInt" "x" "\\d+"), emptyState) :=
  C7_fail_fast ⟨fun kk => kk, strField UInt⟩ [("a", JValue.str "1")]
    [("c", JValue.str "2")] "b" (JValue.str "x") emptyState emptyState emptyState
    [("a", JValue.str "1")] (Err.invalidField "UInt" "x" "\\d+") rfl rfl


/-- Claim C8: for every valid TestCase record, the six pass-through fields
`env`, `logs`, `out`, `post`, `postStateRoot` and `pre` appear in the
translated output unchanged — each value is accepted (`Any` is the
identity) and copied without validation or modification — while the
`transaction` field alone is transformed, by the nested Transaction
schema. -/
theorem C8_passthrough (oracle : String → List Nat)
    (indoc : List (String × JValue)) (st st' : TransState)
    (e l o p ps pr tv tout : JValue)
    (henv : List.lookup "env" indoc = some e)
    (hlogs : List.lookup "logs" indoc = some l)
    (hout : List.lookup "out" indoc = some o)
    (hpost : List.lookup "post" indoc = some p)
    (hpsr : List.lookup "postStateRoot" indoc = some ps)
    (hpre : List.lookup "pre" indoc = some pr)
    (htr : List.lookup "transaction" indoc = some tv)
    (hkeys : ∀ x, x ∈ indoc.map Prod.fst ↔ x ∈ (TestCase oracle).expectedkeys)
    (htrans : schemaField (Transaction oracle) tv st = (Except.ok tout, st')) :
    JSchema.call (TestCase oracle) indoc st =
      (Except.ok [("env", e), ("logs", l), ("out", o), ("post", p),
        ("postStateRoot", ps), ("pre", pr), ("transaction", tout)], st') := by
  rw [call_eq_applyFields_of_keyset_eq (TestCase oracle) indoc st hkeys]
  simp only [TestCase, applyFields, henv, hlogs, hout, hpost, hpsr, hpre, htr, Any,
    htrans]


/-- concrete transaction input for the C8 witness -/
def txIn : List (String × JValue) :=
  [("data", JValue.str "hex:aa"),
   ("gasLimit", JValue.str "100"),
   ("gasPrice", JValue.str "1"),
   ("nonce", JValue.str "0"),
   ("secretKey", JValue.str (String.mk (List.replicate 64 '1'))),
   ("to", JValue.str (String.mk (List.replicate 40 '2'))),
   ("value", JValue.str "0")]

/-- concrete transaction output for the C8 witness -/
def txOut : List (String × JValue) :=
  [("data", JValue.str "0xaa"),
   ("gasLimit", JValue.str "100"),
   ("gasPrice", JValue.str "1"),
   ("nonce", JValue.str "0"),
   ("secretKey", JValue.str (String.mk (List.replicate 64 '1'))),
   ("to", JValue.str (String.mk (List.replicate 40 '2'))),
   ("value", JValue.str "0")]

/-- concrete TestCase record for the C8 witness -/
def tcIn : List (String × JValue) :=
  [("env", JValue.obj []), ("logs", JValue.arr []), ("out", JValue.str ""),
   ("post", JValue.obj []), ("postStateRoot", JValue.str ""), ("pre", JValue.obj []),
   ("transaction", JValue.obj txIn)]

/-- Claim C8 witness: a concrete valid TestCase translates with all six
opaque fields copied verbatim and only `transaction.data` rewritten from
`hex:aa` to `0xaa`. -/
theorem C8_passthrough_witness :
    JSchema.call (TestCase oracle0) tcIn emptyState =
      (Except.ok [("env", JValue.obj []), ("logs", JValue.arr []),
        ("out", JValue.str ""), ("post", JValue.obj []),
        ("postStateRoot", JValue.str ""), ("pre", JValue.obj []),
        ("transaction", JValue.obj txOut)], emptyState) :=
  C8_passthrough oracle0 tcIn emptyState emptyState
    (JValue.obj []) (JValue.arr []) (JValue.str "") (JValue.obj [])
    (JValue.str "") (JValue.obj []) (JValue.obj txIn) (JValue.obj txOut)
    rfl rfl rfl rfl rfl rfl rfl (fun _ => Iff.rfl) rfl

end Ethstm
